import Mathlib

attribute [local semireducible] Rat.mul Rat.inv

/-!
Shallow embedding of the CoinMarketCap viewer (crypto_tree.py):
the filter/sort pipeline, the sort-by toggling, the refresh scheduler,
the fetch error handling, and the display formatters.  Numbers that are
Python floats are modelled as exact rationals (every value exercised here
is either exactly representable in binary64 or rounds identically).
-/

namespace CryptoTree

/-- Python str(x) for an optional string: None renders as the literal
string "None" inside an f-string. -/
def pyStr : Option String → String
  | none => "None"
  | some s => s

/-- Python str.lower restricted to ASCII, as a character-list map. -/
def pyLower (s : String) : String :=
  String.mk (s.data.map Char.toLower)

/-- Python str.strip: drop leading and trailing whitespace. -/
def pyTrim (s : String) : String :=
  String.mk (((s.data.dropWhile Char.isWhitespace).reverse.dropWhile
      Char.isWhitespace).reverse)

/-- Python substring membership test on character lists:
q occurs contiguously inside l. -/
def listContainsB (q l : List Char) : Bool :=
  (List.range (l.length + 1)).any (fun i => q.isPrefixOf (l.drop i))

/-- Python `q in s` for strings. -/
def strContainsB (q s : String) : Bool :=
  listContainsB q.data s.data

/-- Value stored in one sortable cell of a row.  Each column is
homogeneous; the constructor index only orders values of distinct
shapes, which the program never compares. -/
inductive Cell where
  | int (i : Int)
  | rat (q : ℚ)
  | str (s : String)
deriving DecidableEq, Repr

/-- Constructor index, used to totalise the cell order across shapes. -/
def Cell.idx : Cell → Nat
  | .int _ => 0
  | .rat _ => 1
  | .str _ => 2

/-- Comparison of two cell values of the same shape (Python <=). -/
def cellLe (a b : Cell) : Bool :=
  match a, b with
  | .int x, .int y => decide (x ≤ y)
  | .rat x, .rat y => decide (x ≤ y)
  | .str x, .str y => decide (x ≤ y)
  | a, b => decide (a.idx ≤ b.idx)

/-- Python tuple comparison of the sort keys (r[col] is None, r[col]):
False < True, so a missing value compares greater than any present
value; two missing values compare equal. -/
def keyLe : Option Cell → Option Cell → Bool
  | none, none => true
  | none, some _ => false
  | some _, none => true
  | some x, some y => cellLe x y

/-- One row dict built by App.refresh from a coin listing. -/
structure Row where
  rank : Option Int
  symbol : Option String
  name : Option String
  price : Option ℚ
  pct24h : Option ℚ
  pct7d : Option ℚ
  mcap : Option ℚ
  vol24h : Option ℚ
  updated : Option String
deriving DecidableEq, Repr

/-- The nine treeview columns. -/
inductive Col where
  | rank | symbol | name | price | pct24h | pct7d | mcap | vol24h | updated
deriving DecidableEq, Repr

/-- Field lookup r[col]. -/
def cellOf : Col → Row → Option Cell
  | .rank, r => r.rank.map .int
  | .symbol, r => r.symbol.map .str
  | .name, r => r.name.map .str
  | .price, r => r.price.map .rat
  | .pct24h, r => r.pct24h.map .rat
  | .pct7d, r => r.pct7d.map .rat
  | .mcap, r => r.mcap.map .rat
  | .vol24h, r => r.vol24h.map .rat
  | .updated, r => r.updated.map .str

/-- Row comparison used by filtered.sort:
key=lambda r: (r[col] is None, r[col]). -/
def rowLe (col : Col) (r s : Row) : Bool :=
  keyLe (cellOf col r) (cellOf col s)

/-- Python list.sort(key=..., reverse=desc): a stable ascending merge
sort; CPython implements reverse=True by reversing the list before and
after the stable ascending sort. -/
def pySort (col : Col) (desc : Bool) (l : List Row) : List Row :=
  if desc then (l.reverse.mergeSort (rowLe col)).reverse
  else l.mergeSort (rowLe col)

/-- Search haystack of one row: f-string of symbol and name joined by a
single space, lowercased. -/
def hay (r : Row) : String :=
  pyLower (pyStr r.symbol ++ " " ++ pyStr r.name)

/-- Filter predicate of App.apply_filter, with query already stripped
and lowercased: empty query matches everything. -/
def matchesRow (query : String) (r : Row) : Bool :=
  if query = "" then true else strContainsB query (hay r)

/-- Pipeline of App.apply_filter on explicit arguments: strip and
lowercase the search text, filter, then sort with the current state. -/
def applyPipeline (rows : List Row) (search : String) (col : Col)
    (desc : Bool) : List Row :=
  pySort col desc (rows.filter (matchesRow (pyLower (pyTrim search))))

/-- Row tag computed in the repopulation loop: "neu" unless pct24h is
present, then "pos" when it is >= 0 and "neg" otherwise. -/
def tagOf : Option ℚ → String
  | none => "neu"
  | some v => if 0 ≤ v then "pos" else "neg"

/-- Round the fraction n over d (with d positive) to the nearest
integer, ties to even, as the decimal conversion Python applies to a
float in an f-string does; the fractional remainder is compared to one
half by cross-multiplication so everything stays in integer
arithmetic. -/
def roundHalfEvenFrac (n d : Int) : Int :=
  let f := n.fdiv d
  let r2 := 2 * (n - f * d)
  if r2 < d then f
  else if d < r2 then f + 1
  else if f % 2 = 0 then f else f + 1

/-- Group a reversed digit list in blocks of three. -/
def chunk3 : List Char → List (List Char)
  | [] => []
  | a :: b :: c :: d :: rest => [a, b, c] :: chunk3 (d :: rest)
  | l => [l]

/-- Render a natural number with commas every three digits. -/
def commaGroup (n : Nat) : String :=
  let cs := (chunk3 (toString n).data.reverse).map
    (fun c => String.mk c.reverse)
  String.intercalate "," cs.reverse

/-- Python format spec .precf (and ,.precf when grouped) on an exact
rational value. -/
def formatFixed (grouped : Bool) (v : ℚ) (prec : Nat) : String :=
  let m := roundHalfEvenFrac (v.num * (10 : Int) ^ prec) (v.den : Int)
  let a := m.natAbs
  let ip := a / 10 ^ prec
  let fp := a % 10 ^ prec
  let sign := if v < 0 then "-" else ""
  let ipStr := if grouped then commaGroup ip else toString ip
  let fpStr := (String.mk (List.replicate (prec - (toString fp).length) '0'))
    ++ toString fp
  if prec = 0 then sign ++ ipStr else sign ++ ipStr ++ "." ++ fpStr

/-- Formatter fmt_money: magnitude suffixes T/B/M/K at 1e12/1e9/1e6/1e3
with two decimals, dash on missing input. -/
def fmt_money : Option ℚ → String
  | none => "-"
  | some x =>
    if 1000000000000 ≤ x then "$" ++ formatFixed true (x / 1000000000000) 2 ++ "T"
    else if 1000000000 ≤ x then "$" ++ formatFixed true (x / 1000000000) 2 ++ "B"
    else if 1000000 ≤ x then "$" ++ formatFixed true (x / 1000000) 2 ++ "M"
    else if 1000 ≤ x then "$" ++ formatFixed true (x / 1000) 2 ++ "K"
    else "$" ++ formatFixed true x 2

/-- Formatter fmt_price: eight decimals below 1, else two. -/
def fmt_price : Option ℚ → String
  | none => "-"
  | some x => if x < 1 then "$" ++ formatFixed true x 8
    else "$" ++ formatFixed true x 2

/-- Formatter fmt_pct: two decimals and a percent sign; formatting None
raises TypeError which the except clause turns into a dash. -/
def fmt_pct : Option ℚ → String
  | none => "-"
  | some x => formatFixed false x 2 ++ "%"

/-- Broken-down timestamp produced by datetime.fromisoformat. -/
structure PyDatetime where
  year : Nat
  month : Nat
  day : Nat
  hour : Nat
  minute : Nat
  second : Nat
deriving DecidableEq, Repr

/-- Parse a fixed-width decimal field. -/
def parseDigits (cs : List Char) : Option Nat :=
  if cs ≠ [] ∧ cs.all Char.isDigit then
    some (cs.foldl (fun n c => n * 10 + (c.toNat - 48)) 0)
  else none

/-- Check of a fixed-width numeric field followed by an expected
punctuation character. -/
def fieldAt (cs : List Char) (i w : Nat) : Option Nat :=
  parseDigits ((cs.drop i).take w)

/-- Modelled from Python datetime.fromisoformat on the shapes this
program receives: YYYY-MM-DD, optionally a separator and HH:MM:SS,
optionally fractional seconds and a +HH:MM offset; anything else
fails. -/
def parseIsoDt (s : String) : Option PyDatetime :=
  let cs := s.data
  match fieldAt cs 0 4, (cs.drop 4).take 1, fieldAt cs 5 2,
      (cs.drop 7).take 1, fieldAt cs 8 2 with
  | some y, ['-'], some mo, ['-'], some d =>
    if 1 ≤ mo ∧ mo ≤ 12 ∧ 1 ≤ d ∧ d ≤ 31 then
      match cs.drop 10 with
      | [] => some ⟨y, mo, d, 0, 0, 0⟩
      | _ :: t =>
        match fieldAt t 0 2, (t.drop 2).take 1, fieldAt t 3 2,
            (t.drop 5).take 1, fieldAt t 6 2 with
        | some hh, [':'], some mi, [':'], some ss =>
          if hh ≤ 23 ∧ mi ≤ 59 ∧ ss ≤ 59 then
            let tail := t.drop 8
            let tail := if tail.take 1 = ['.'] then
                (tail.drop 1).dropWhile Char.isDigit else tail
            match tail with
            | [] => some ⟨y, mo, d, hh, mi, ss⟩
            | sgn :: z =>
              if (sgn = '+' ∨ sgn = '-')
                  ∧ (fieldAt z 0 2).isSome ∧ (z.drop 2).take 1 = [':']
                  ∧ (fieldAt z 3 2).isSome ∧ z.drop 5 = [] then
                some ⟨y, mo, d, hh, mi, ss⟩
              else none
          else none
        | _, _, _, _, _ => none
    else none
  | _, _, _, _, _ => none

/-- Zero-pad a number to a width. -/
def pad0 (w : Nat) (n : Nat) : String :=
  let s := toString n
  String.mk (List.replicate (w - s.length) '0') ++ s

/-- Python strftime with format %Y-%m-%d %H:%M:%S. -/
def strftimeYmdHMS (dt : PyDatetime) : String :=
  pad0 4 dt.year ++ "-" ++ pad0 2 dt.month ++ "-" ++ pad0 2 dt.day ++ " "
    ++ pad0 2 dt.hour ++ ":" ++ pad0 2 dt.minute ++ ":" ++ pad0 2 dt.second

/-- Python str.replace on whole strings, used for the Z to +00:00
rewrite; implemented over character lists. -/
def replaceZ (s : String) : String :=
  String.mk (s.data.flatMap
    (fun c => if c = 'Z' then "+00:00".data else [c]))

/-- Formatter fmt_dt: dash on missing or empty input, else parse the
ISO timestamp with Z rewritten to +00:00 and render it; on a parse
failure return the raw string. -/
def fmt_dt : Option String → String
  | none => "-"
  | some s =>
    if s = "" then "-"
    else match parseIsoDt (replaceZ s) with
      | some dt => strftimeYmdHMS dt
      | none => s

/-- One row inserted into the treeview: the displayed value strings and
the colour tag. -/
structure TreeItem where
  values : List String
  tag : String
deriving DecidableEq, Repr

/-- Values tuple and tag built for one row in the repopulation loop of
App.apply_filter. -/
def renderRow (r : Row) : TreeItem :=
  { values :=
      [ match r.rank with | none => "" | some k => toString k
      , (r.symbol.getD "")
      , (r.name.getD "")
      , fmt_price r.price
      , fmt_pct r.pct24h
      , fmt_pct r.pct7d
      , match r.mcap with | none => "-" | some v => fmt_money (some v)
      , match r.vol24h with | none => "-" | some v => fmt_money (some v)
      , fmt_dt r.updated ]
  , tag := tagOf r.pct24h }

/-- Mutable state of the App window that the pipeline touches. -/
structure AppState where
  rows_raw : List Row
  search_var : String
  sort_col : Col
  sort_desc : Bool
  tree : List TreeItem
deriving Repr

/-- Method App.apply_filter: reads rows_raw and the search text, filters
and sorts into a fresh list, and repopulates the tree from it; rows_raw
is only read. -/
def apply_filter (st : AppState) : AppState :=
  let shown := applyPipeline st.rows_raw st.search_var st.sort_col st.sort_desc
  { st with tree := shown.map renderRow }

/-- Method App.sort_by: flip the direction when the clicked column is the
current sort key, else select it ascending, then re-apply the filter. -/
def sort_by (c : Col) (st : AppState) : AppState :=
  let desc := if c = st.sort_col then !st.sort_desc else false
  apply_filter { st with sort_col := c, sort_desc := desc }

/-- State of the Tk after-queue as the App uses it: the armed timers,
the id the App remembers in self._after_id, and a fresh-id counter. -/
structure Sched where
  pending : List (Nat × Int)
  afterId : Option Nat
  nextId : Nat
deriving DecidableEq, Repr

/-- Scheduler state at App start: nothing armed. -/
def Sched.init : Sched := ⟨[], none, 0⟩

/-- Tk after_cancel: discard the timer with the given id. -/
def afterCancel (s : Sched) (i : Nat) : Sched :=
  { s with pending := s.pending.filter (fun t => t.1 ≠ i) }

/-- Tk after(ms, callback): arm one new timer and return its id. -/
def afterArm (s : Sched) (ms : Int) : Sched × Nat :=
  ({ s with
     pending := s.pending ++ [(s.nextId, ms)],
     nextId := s.nextId + 1 }, s.nextId)

/-- Method App.apply_auto_refresh with the interval already parsed (a
parse failure yields 0): cancel the remembered timer, then arm a new
one only when the interval is positive. -/
def apply_auto_refresh (ms : Int) (s : Sched) : Sched :=
  let s1 := match s.afterId with
    | some i => { afterCancel s i with afterId := none }
    | none => s
  if 0 < ms then
    let (s2, id) := afterArm s1 ms
    { s2 with afterId := some id }
  else s1

/-- Fold a whole sequence of configure calls over the scheduler. -/
def runConfigs (l : List Int) (s : Sched) : Sched :=
  l.foldl (fun s ms => apply_auto_refresh ms s) s

/-- Raw coin listing as fetched, before App.refresh converts it to a
Row; only the nested USD quote and the top-level fields the program
reads are modelled. -/
structure CoinData where
  cmc_rank : Option Int
  symbol : Option String
  name : Option String
  quote_usd_price : Option ℚ
  quote_usd_pct24h : Option ℚ
  quote_usd_pct7d : Option ℚ
  quote_usd_mcap : Option ℚ
  quote_usd_vol24h : Option ℚ
  quote_usd_updated : Option String
  last_updated : Option String
deriving DecidableEq, Repr

/-- Parsed JSON body of the listings response: the data field may be
absent. -/
structure Payload where
  data? : Option (List CoinData)
deriving DecidableEq, Repr

/-- Outcome of the HTTP request and JSON decode in fetch_listings. -/
inductive FetchOutcome where
  | netError
  | httpError (body : String)
  | badJson
  | ok (payload : Payload)
deriving DecidableEq, Repr

/-- Python exceptions the try block of fetch_listings can raise. -/
inductive PyExc where
  | requestExc
  | httpStatusExc (body : String)
  | jsonExc
deriving DecidableEq, Repr

/-- Body of the try block: requests.get may raise, raise_for_status
raises on a bad status, r.json may raise, and payload.get returns the
data list or the default empty list. -/
def fetchBody : FetchOutcome → Except PyExc (List CoinData)
  | .netError => .error .requestExc
  | .httpError body => .error (.httpStatusExc body)
  | .badJson => .error .jsonExc
  | .ok p => .ok (p.data?.getD [])

/-- Result of fetch_listings: the error dialogs shown and the returned
list. -/
structure FetchResult where
  notifs : List String
  rows : List CoinData
deriving DecidableEq, Repr

/-- Function fetch_listings: both except clauses show a dialog and fall
through to return an empty list; no exception escapes. -/
def fetch_listings (o : FetchOutcome) : FetchResult :=
  match fetchBody o with
  | .ok rows => ⟨[], rows⟩
  | .error (.httpStatusExc _) => ⟨["HTTP Error"], []⟩
  | .error _ => ⟨["Error"], []⟩

/-- Example row with a missing price. -/
def rowPN : Row := ⟨some 1, some "AAA", some "Alpha", none, none, none, none, none, none⟩

/-- Example row with price 5. -/
def rowP5 : Row := ⟨some 2, some "BBB", some "Beta", some 5, none, none, none, none, none⟩

/-- Example row with price 3. -/
def rowP3 : Row := ⟨some 3, some "CCC", some "Gamma", some 3, none, none, none, none, none⟩

/-- Example row whose haystack is the string b xa. -/
def rowBXA : Row := ⟨none, some "b", some "xa", none, none, none, none, none, none⟩

/-- Example row with a missing symbol and the name Bitcoin. -/
def rowNullSym : Row := ⟨none, none, some "Bitcoin", none, none, none, none, none, none⟩

/-- Example app state sorted by rank ascending with no rows. -/
def st0 : AppState := ⟨[], "", Col.rank, false, []⟩

/-- Invariant of the scheduler state: the remembered after-id is in sync
with the armed timers, so at most one timer is ever pending. -/
def SchedInv (s : Sched) : Prop :=
  (s.afterId = none ∧ s.pending = [])
  ∨ ∃ i ms, s.afterId = some i ∧ s.pending = [(i, ms)]

end CryptoTree

namespace CryptoTree

theorem cellLe_refl (a : Cell) : cellLe a a = true := by
  cases a <;> simp [cellLe]

theorem cellLe_trans {a b c : Cell} (h1 : cellLe a b = true)
    (h2 : cellLe b c = true) : cellLe a c = true := by
  cases a <;> cases b <;> cases c <;>
    simp_all only [cellLe, Cell.idx, decide_eq_true_eq] <;>
    first
    | omega
    | exact le_trans h1 h2

theorem cellLe_total (a b : Cell) : cellLe a b || cellLe b a := by
  cases a <;> cases b <;>
    simp_all only [cellLe, Cell.idx, Bool.or_eq_true, decide_eq_true_eq] <;>
    first
    | omega
    | exact le_total _ _

theorem keyLe_refl (a : Option Cell) : keyLe a a = true := by
  cases a <;> simp [keyLe, cellLe_refl]

theorem keyLe_trans {a b c : Option Cell} (h1 : keyLe a b = true)
    (h2 : keyLe b c = true) : keyLe a c = true := by
  cases a <;> cases b <;> cases c <;> simp_all [keyLe]
  exact cellLe_trans h1 h2

theorem keyLe_total (a b : Option Cell) : keyLe a b || keyLe b a := by
  cases a <;> cases b
  · rfl
  · rfl
  · rfl
  · exact cellLe_total _ _

theorem keyLe_none_left {y : Option Cell} (h : keyLe none y = true) :
    y = none := by
  cases y <;> simp_all [keyLe]

theorem rowLe_trans (col : Col) : ∀ (a b c : Row),
    rowLe col a b → rowLe col b c → rowLe col a c := by
  intro a b c h1 h2
  exact keyLe_trans h1 h2

theorem rowLe_total (col : Col) : ∀ (a b : Row),
    rowLe col a b || rowLe col b a := by
  intro a b
  exact keyLe_total _ _

theorem mem_pySort {col : Col} {d : Bool} {l : List Row} {r : Row} :
    r ∈ pySort col d l ↔ r ∈ l := by
  unfold pySort
  split <;> simp

theorem length_pySort (col : Col) (d : Bool) (l : List Row) :
    (pySort col d l).length = l.length := by
  unfold pySort
  split <;>
    simp [(List.mergeSort_perm _ _).length_eq]

theorem filter_mergeSort_key (col : Col) (v : Option Cell) (m : List Row) :
    (m.mergeSort (rowLe col)).filter (fun r => decide (cellOf col r = v))
      = m.filter (fun r => decide (cellOf col r = v)) := by
  set p : Row → Bool := fun r => decide (cellOf col r = v) with hp
  have hpw : (m.filter p).Pairwise (fun a b => rowLe col a b = true) := by
    apply List.pairwise_of_forall_mem_list
    intro a ha b hb
    have hav : cellOf col a = v := by
      have := (List.mem_filter.mp ha).2
      simpa [hp] using this
    have hbv : cellOf col b = v := by
      have := (List.mem_filter.mp hb).2
      simpa [hp] using this
    simp [rowLe, hav, hbv, keyLe_refl]
  have hsub : List.Sublist (m.filter p) (m.mergeSort (rowLe col)) :=
    List.sublist_mergeSort (rowLe_trans col) (rowLe_total col) hpw
      (List.filter_sublist m)
  have hsub2 : List.Sublist (m.filter p) ((m.mergeSort (rowLe col)).filter p) := by
    have := hsub.filter p
    simpa [List.filter_filter] using this
  have hperm : List.Perm ((m.mergeSort (rowLe col)).filter p) (m.filter p) :=
    (List.mergeSort_perm m (rowLe col)).filter p
  exact (hsub2.eq_of_length hperm.length_eq.symm).symm

theorem filter_pySort_key (col : Col) (d : Bool) (v : Option Cell)
    (l : List Row) :
    (pySort col d l).filter (fun r => decide (cellOf col r = v))
      = l.filter (fun r => decide (cellOf col r = v)) := by
  unfold pySort
  split
  · rw [List.filter_reverse, filter_mergeSort_key, List.filter_reverse,
      List.reverse_reverse]
  · exact filter_mergeSort_key col v l

theorem pairwise_pySort_asc (col : Col) (l : List Row) :
    (pySort col false l).Pairwise (fun a b => rowLe col a b = true) := by
  unfold pySort
  simp only [Bool.false_eq_true, if_false]
  exact List.sorted_mergeSort (rowLe_trans col) (rowLe_total col) l

theorem pairwise_pySort_desc (col : Col) (l : List Row) :
    (pySort col true l).Pairwise (fun a b => rowLe col b a = true) := by
  unfold pySort
  simp only [if_true]
  rw [List.pairwise_reverse]
  exact List.sorted_mergeSort (rowLe_trans col) (rowLe_total col) l.reverse

theorem listContainsB_intro (q l : List Char) (i : Nat) (h : i ≤ l.length)
    (hp : q.isPrefixOf (l.drop i) = true) : listContainsB q l = true := by
  unfold listContainsB
  rw [List.any_eq_true]
  exact ⟨i, List.mem_range.mpr (by omega), hp⟩

theorem hay_data (r : Row) :
    (hay r).data = ((pyStr r.symbol).data.map Char.toLower)
      ++ ' ' :: ((pyStr r.name).data.map Char.toLower) := by
  simp [hay, pyLower, pyStr]

theorem pipeline_price_asc_concrete :
    applyPipeline [rowPN, rowP5, rowP3] "" Col.price false
      = [rowP3, rowP5, rowPN] := by
  simp [applyPipeline, pySort, matchesRow, pyTrim, pyLower]
  simp [List.mergeSort, List.splitInTwo, List.merge, rowLe, keyLe, cellOf,
    cellLe, rowPN, rowP5, rowP3]
  norm_num

theorem pipeline_price_desc_concrete :
    applyPipeline [rowPN, rowP5, rowP3] "" Col.price true
      = [rowPN, rowP5, rowP3] := by
  simp [applyPipeline, pySort, matchesRow, pyTrim, pyLower]
  simp [List.mergeSort, List.splitInTwo, List.merge, rowLe, keyLe, cellOf,
    cellLe, rowPN, rowP5, rowP3]
  norm_num
  simp [List.merge, rowLe, keyLe, cellOf, cellLe, rowPN, rowP5, rowP3]

/-- C1, corrected.  The sort key (r[col] is None, r[col]) makes a null
sort-key value compare greater than every non-null value, not smaller:
ascending order puts null-keyed records after all non-null ones and
descending order puts them before, and sorting [null, 5, 3] by price
ascending yields [3, 5, null] while descending yields [null, 5, 3]. -/
theorem nulls_sort_after_values (rows : List Row) (col : Col) :
    ((pySort col false rows).Pairwise
      (fun a b => cellOf col a = none → cellOf col b = none))
    ∧ ((pySort col true rows).Pairwise
      (fun a b => cellOf col b = none → cellOf col a = none))
    ∧ applyPipeline [rowPN, rowP5, rowP3] "" Col.price false
        = [rowP3, rowP5, rowPN]
    ∧ applyPipeline [rowPN, rowP5, rowP3] "" Col.price true
        = [rowPN, rowP5, rowP3] := by
  refine ⟨?_, ?_, pipeline_price_asc_concrete, pipeline_price_desc_concrete⟩
  · refine (pairwise_pySort_asc col rows).imp ?_
    intro a b hle ha
    have hk : keyLe (cellOf col a) (cellOf col b) = true := hle
    rw [ha] at hk
    exact keyLe_none_left hk
  · refine (pairwise_pySort_desc col rows).imp ?_
    intro a b hle hb
    have hk : keyLe (cellOf col b) (cellOf col a) = true := hle
    rw [hb] at hk
    exact keyLe_none_left hk

/-- C1 witness: the amended theorem applied at the spec example. -/
theorem nulls_sort_after_values_witness :
    applyPipeline [rowPN, rowP5, rowP3] "" Col.price false
      = [rowP3, rowP5, rowPN] :=
  (nulls_sort_after_values [] Col.rank).2.2.1

/-- C1 counterexample: on the spec example rows with prices null, 5, 3,
the ascending sort by price does not yield the claimed [null, 3, 5] and
the descending sort does not yield the claimed [5, 3, null]. -/
theorem nulls_sort_small_cex :
    applyPipeline [rowPN, rowP5, rowP3] "" Col.price false
        ≠ [rowPN, rowP3, rowP5]
    ∧ applyPipeline [rowPN, rowP5, rowP3] "" Col.price true
        ≠ [rowP5, rowP3, rowPN] := by
  rw [pipeline_price_asc_concrete, pipeline_price_desc_concrete]
  constructor <;> decide

/-- C6: the pipeline sort is stable in both directions: for every key
value v, the records whose sort cell equals v appear in the output in
exactly the order in which they appear in the filtered input. -/
theorem sort_stable (rows : List Row) (q : String) (col : Col) (d : Bool)
    (v : Option Cell) :
    (applyPipeline rows q col d).filter (fun r => decide (cellOf col r = v))
      = (rows.filter (matchesRow (pyLower (pyTrim q)))).filter
          (fun r => decide (cellOf col r = v)) := by
  unfold applyPipeline
  exact filter_pySort_key col d v _

/-- C2, corrected.  With the search text stripped of surrounding
whitespace and lowercased, every record in the pipeline output has the
stripped query as a case-insensitive substring of symbol and name
joined by a single space, every input row with that property appears in
the output, and an empty query passes every row through, so the output
length equals the input length. -/
theorem filter_sound_complete (rows : List Row) (q : String) (col : Col)
    (d : Bool) :
    (pyLower (pyTrim q) ≠ "" →
      ∀ r ∈ applyPipeline rows q col d,
        strContainsB (pyLower (pyTrim q)) (hay r) = true)
    ∧ (∀ r ∈ rows, strContainsB (pyLower (pyTrim q)) (hay r) = true →
        r ∈ applyPipeline rows q col d)
    ∧ (q = "" → (applyPipeline rows q col d).length = rows.length) := by
  refine ⟨?_, ?_, ?_⟩
  · intro hne r hr
    have hmem : r ∈ rows.filter (matchesRow (pyLower (pyTrim q))) := by
      have := hr
      unfold applyPipeline at this
      exact mem_pySort.mp this
    have hm := (List.mem_filter.mp hmem).2
    unfold matchesRow at hm
    rw [if_neg hne] at hm
    exact hm
  · intro r hr hc
    have hm : matchesRow (pyLower (pyTrim q)) r = true := by
      unfold matchesRow
      split
      · rfl
      · exact hc
    unfold applyPipeline
    exact mem_pySort.mpr (List.mem_filter.mpr ⟨hr, hm⟩)
  · intro hq
    subst hq
    have ht : pyLower (pyTrim "") = "" := rfl
    have hall : rows.filter (matchesRow (pyLower (pyTrim ""))) = rows := by
      apply List.filter_eq_self.mpr
      intro a _
      rw [ht]
      rfl
    unfold applyPipeline
    rw [hall, length_pySort]

/-- C2 witness: the empty-query conjunct applied to a singleton list. -/
theorem filter_sound_complete_witness :
    (applyPipeline [rowBXA] "" Col.rank false).length
      = ([rowBXA] : List Row).length :=
  (filter_sound_complete [rowBXA] "" Col.rank false).2.2 rfl

/-- C2 counterexample: for the non-empty query consisting of an x and a
trailing space, the row with symbol b and name xa is retained (the code
strips the query before matching), yet the query is not a substring of
the haystack b xa, contradicting the claim read over every non-empty
filter_query. -/
theorem filter_query_stripped_cex :
    applyPipeline [rowBXA] "x " Col.rank false = [rowBXA]
    ∧ strContainsB (pyLower "x ") (hay rowBXA) = false := by
  constructor
  · have hf : List.filter (matchesRow (pyLower (pyTrim "x "))) [rowBXA]
        = [rowBXA] := by decide
    simp only [applyPipeline, pySort, Bool.false_eq_true, if_false, hf]
    simp [List.mergeSort]
  · decide

/-- C3: clicking the column that is already the sort key flips the
direction, clicking a different column selects it with ascending
direction; from (rank, ascending) clicking rank gives (rank,
descending) and clicking symbol gives (symbol, ascending). -/
theorem sort_by_toggle (st : AppState) (c : Col) :
    ((sort_by c st).sort_col = c)
    ∧ (c = st.sort_col → (sort_by c st).sort_desc = !st.sort_desc)
    ∧ (c ≠ st.sort_col → (sort_by c st).sort_desc = false)
    ∧ ((sort_by Col.rank st0).sort_col = Col.rank
        ∧ (sort_by Col.rank st0).sort_desc = true)
    ∧ ((sort_by Col.symbol st0).sort_col = Col.symbol
        ∧ (sort_by Col.symbol st0).sort_desc = false) := by
  refine ⟨rfl, ?_, ?_, ⟨rfl, rfl⟩, ⟨rfl, rfl⟩⟩
  · intro h
    simp [sort_by, apply_filter, h]
  · intro h
    simp [sort_by, apply_filter, h]

/-- C3 witness: the toggle conjunct applied at the initial state. -/
theorem sort_by_toggle_witness :
    (sort_by Col.rank st0).sort_desc = !st0.sort_desc :=
  (sort_by_toggle st0 Col.rank).2.1 rfl

/-- C8: the apply_filter pipeline never touches rows_raw or the sort
and search state; it only replaces the tree contents with a freshly
built render of the filtered and sorted rows. -/
theorem apply_filter_frame (st : AppState) :
    (apply_filter st).rows_raw = st.rows_raw
    ∧ (apply_filter st).search_var = st.search_var
    ∧ (apply_filter st).sort_col = st.sort_col
    ∧ (apply_filter st).sort_desc = st.sort_desc
    ∧ (apply_filter st).tree
        = (applyPipeline st.rows_raw st.search_var st.sort_col
            st.sort_desc).map renderRow :=
  ⟨rfl, rfl, rfl, rfl, rfl⟩

/-- C9: a rendered row is tagged pos exactly when pct_change_24h is
present and non-negative, neg exactly when it is present and negative,
and neu exactly when it is missing. -/
theorem row_tag_rule (x : Option ℚ) (r : Row) :
    ((renderRow r).tag = tagOf r.pct24h)
    ∧ (tagOf x = "pos" ↔ ∃ v, x = some v ∧ 0 ≤ v)
    ∧ (tagOf x = "neg" ↔ ∃ v, x = some v ∧ v < 0)
    ∧ (tagOf x = "neu" ↔ x = none) := by
  refine ⟨rfl, ?_, ?_, ?_⟩ <;> cases x <;> simp [tagOf] <;> split <;>
    simp_all

/-- C9 witness: the pos characterisation applied at the value one. -/
theorem row_tag_rule_witness : tagOf (some 1) = "pos" :=
  (row_tag_rule (some 1) rowP3).2.1.mpr ⟨1, rfl, by norm_num⟩

/-- C4 counterexample: a successful response whose JSON payload lacks
the data key is one of the failure modes the claim lists (missing key),
but fetch_listings returns the empty list silently, showing no
user-visible notification. -/
theorem fetch_missing_key_silent :
    (fetch_listings (.ok ⟨none⟩)).notifs = []
    ∧ (fetch_listings (.ok ⟨none⟩)).rows = [] :=
  ⟨rfl, rfl⟩

/-- C4, corrected.  Network errors, bad HTTP statuses and malformed
JSON are caught, reported through an error dialog and turned into an
empty result, and fetch_listings is a total function so no exception
reaches the caller; a payload missing the data key however yields the
empty result silently, with no notification. -/
theorem fetch_error_policy (o : FetchOutcome) :
    ((o = .netError ∨ o = .badJson ∨ (∃ b, o = .httpError b)) →
      (fetch_listings o).notifs ≠ [] ∧ (fetch_listings o).rows = [])
    ∧ (∀ p, (fetch_listings (.ok p)).notifs = [])
    ∧ ((fetch_listings (.ok ⟨none⟩)).rows = []) := by
  refine ⟨?_, fun p => rfl, rfl⟩
  rintro (rfl | rfl | ⟨b, rfl⟩) <;>
    exact ⟨by simp [fetch_listings, fetchBody], rfl⟩

/-- C4 witness: the failure conjunct applied at a network error. -/
theorem fetch_error_policy_witness :
    (fetch_listings FetchOutcome.netError).notifs ≠ []
    ∧ (fetch_listings FetchOutcome.netError).rows = [] :=
  (fetch_error_policy FetchOutcome.netError).1 (Or.inl rfl)

theorem schedInv_step (ms : Int) (s : Sched) (h : SchedInv s) :
    SchedInv (apply_auto_refresh ms s) := by
  rcases h with ⟨h1, h2⟩ | ⟨i, ms0, h1, h2⟩ <;>
    simp only [apply_auto_refresh, afterCancel, afterArm, h1, h2] <;>
    split
  · right
    exact ⟨s.nextId, ms, rfl, by simp [h2]⟩
  · exact Or.inl ⟨h1, h2⟩
  · right
    exact ⟨s.nextId, ms, rfl, by simp⟩
  · left
    exact ⟨rfl, by simp⟩

theorem schedInv_run (l : List Int) (s : Sched) (h : SchedInv s) :
    SchedInv (runConfigs l s) := by
  induction l generalizing s with
  | nil => exact h
  | cons a t ih => exact ih (apply_auto_refresh a s) (schedInv_step a s h)

/-- C5: after any sequence of configure calls at most one timer is
pending; a non-positive interval cancels the pending timer and leaves
the scheduler idle; and configuring 60000 then 30000 leaves exactly one
pending timer, at interval 30000. -/
theorem scheduler_one_timer (l : List Int) :
    ((runConfigs l Sched.init).pending.length ≤ 1)
    ∧ (∀ ms : Int, ms ≤ 0 →
        (apply_auto_refresh ms (runConfigs l Sched.init)).pending = []
        ∧ (apply_auto_refresh ms (runConfigs l Sched.init)).afterId = none)
    ∧ ((runConfigs (l ++ [60000, 30000]) Sched.init).pending.map Prod.snd
        = [30000]) := by
  have hinv : SchedInv (runConfigs l Sched.init) :=
    schedInv_run l Sched.init (Or.inl ⟨rfl, rfl⟩)
  refine ⟨?_, ?_, ?_⟩
  · rcases hinv with ⟨_, h2⟩ | ⟨i, ms0, _, h2⟩ <;> simp [h2]
  · intro ms hms
    have hnot : ¬ 0 < ms := by omega
    rcases hinv with ⟨h1, h2⟩ | ⟨i, ms0, h1, h2⟩ <;>
      simp [apply_auto_refresh, afterCancel, h1, h2, hnot]
  · have happ : runConfigs (l ++ [60000, 30000]) Sched.init
        = apply_auto_refresh 30000
            (apply_auto_refresh 60000 (runConfigs l Sched.init)) := by
      simp [runConfigs, List.foldl_append]
    rw [happ]
    rcases hinv with ⟨h1, h2⟩ | ⟨i, ms0, h1, h2⟩ <;>
      simp [apply_auto_refresh, afterCancel, afterArm, h1, h2]

/-- C5 witness: a non-positive configure call on the initial scheduler
leaves no pending timer. -/
theorem scheduler_one_timer_witness :
    (apply_auto_refresh 0 (runConfigs [] Sched.init)).pending = [] :=
  ((scheduler_one_timer []).2.1 0 (by norm_num)).1

/-- C7: the formatter round trips from the spec, and the dash returned
by every formatter on missing input. -/
theorem formatter_values :
    fmt_money (some 1500000000) = "$1.50B"
    ∧ fmt_price (some (1/2)) = "$0.50000000"
    ∧ fmt_price (some (5/2)) = "$2.50"
    ∧ fmt_pct (some (-3456/1000)) = "-3.46%"
    ∧ fmt_money none = "-"
    ∧ fmt_price none = "-"
    ∧ fmt_pct none = "-"
    ∧ fmt_dt none = "-" :=
  ⟨by decide, by decide, by decide, by decide, rfl, rfl, rfl, rfl⟩

theorem pySort_singleton (col : Col) (d : Bool) (r : Row) :
    pySort col d [r] = [r] := by
  unfold pySort
  split <;> simp [List.mergeSort]

/-- C10: a missing symbol or name is rendered by the f-string as the
literal text None, so the lowercased query none retains every row with
a null symbol or name; on the concrete row with a null symbol and name
Bitcoin the pipeline keeps the row for the query None even though the
query is not a substring of the lowercased actual name text. -/
theorem null_field_matches_query_none (r : Row) (col : Col) (d : Bool) :
    (r.symbol = none ∨ r.name = none → matchesRow "none" r = true)
    ∧ applyPipeline [rowNullSym] "None" col d = [rowNullSym]
    ∧ strContainsB "none" (pyLower (pyStr rowNullSym.name)) = false := by
  refine ⟨?_, ?_, by decide⟩
  · intro h
    unfold matchesRow
    rw [if_neg (by decide)]
    unfold strContainsB
    rcases h with hs | hn
    · apply listContainsB_intro _ _ 0 (by omega)
      rw [List.drop_zero, hay_data, hs]
      simp [pyStr, List.isPrefixOf]
    · apply listContainsB_intro _ _
        (((pyStr r.symbol).data.map Char.toLower).length + 1)
      · rw [hay_data, hn]
        simp [pyStr]
      · rw [hay_data, hn]
        have hsplit : ((pyStr r.symbol).data.map Char.toLower)
              ++ ' ' :: ((pyStr (none : Option String)).data.map Char.toLower)
            = (((pyStr r.symbol).data.map Char.toLower) ++ [' '])
              ++ ((pyStr (none : Option String)).data.map Char.toLower) := by
          simp
        rw [hsplit]
        have hlen : ((pyStr r.symbol).data.map Char.toLower).length + 1
            = (((pyStr r.symbol).data.map Char.toLower) ++ [' ']).length := by
          simp
        rw [hlen, List.drop_left]
        simp [pyStr, List.isPrefixOf]
  · have hf : List.filter (matchesRow (pyLower (pyTrim "None"))) [rowNullSym]
        = [rowNullSym] := by decide
    unfold applyPipeline
    rw [hf, pySort_singleton]

/-- C10 witness: the general conjunct applied at the row with a null
symbol. -/
theorem null_field_matches_query_none_witness :
    matchesRow "none" rowNullSym = true :=
  (null_field_matches_query_none rowNullSym Col.rank false).1 (Or.inl rfl)

end CryptoTree
